import Mathlib

/-!
Verification of the NASL tree-walking evaluation core
(`rust/nasl-interpreter`): the runtime value model with its coercions
(`interpreter.rs`), the frame register (`context.rs`), the statement
evaluator (`interpreter.rs`, `loop_extension.rs`), the call dispatcher
(`call.rs`) and the declaration handler (`declare.rs`).

Modelling conventions:
- Rust `i32` numbers are modelled as `Int`; none of the verified
  properties involve arithmetic overflow.
- `HashMap<String, _>` is modelled as an association list with
  insert-overwrites-previous semantics (`assocInsert`/`assocGet`);
  the source only ever inserts and looks up by key, so iteration
  order is immaterial.
- Rust panics (`todo!()`, `panic!(..)`, the `?`-free unwraps) are
  modelled by the `Outcome.abort` result; `InterpretError` by
  `Outcome.err`.  Recursion through stored function bodies and loop
  iteration is not structural, so the evaluator takes a fuel
  parameter; exhaustion yields the model-only `Outcome.timeout`.
- The builtin registry (`crate::lookup`) and the storage sink are
  external collaborators; they are abstracted as a lookup function
  from names to handlers that see the register, mirroring
  `function(self.key, self.storage, &self.registrat)` with the two
  opaque arguments absorbed.
-/

namespace NaslCore

/-- `ACT` attack-category enumeration from `nasl-syntax`, modelled by its
discriminant ordinal (the evaluator only ever casts it with `as i32`). -/
abbrev ACT := Nat

/-- Runtime value sum type, from `enum NaslValue` in `interpreter.rs`
(the variant set that the evaluator in `src/` actually runs on,
including the `Continue`/`Break` control sentinels). -/
inductive NaslValue where
  | String (s : String)
  | Number (n : Int)
  | Array (xs : List NaslValue)
  | Dict (xs : List (String × NaslValue))
  | Boolean (b : Bool)
  | AttackCategory (c : ACT)
  | Null
  | Return (v : NaslValue)
  | Continue
  | Break
  | Exit (n : Int)

/-- `impl From<NaslValue> for bool` in `interpreter.rs`. -/
def coerceToBool : NaslValue → Bool
  | .String s => !(s.isEmpty) && s != "0"
  | .Array v => !v.isEmpty
  | .Boolean b => b
  | .Null => false
  | .Number n => n != 0
  | .Exit n => n != 0
  | .AttackCategory _ => true
  | .Dict v => !v.isEmpty
  | .Return v => coerceToBool v
  | .Continue => false
  | .Break => false

/-- `impl From<&NaslValue> for i32` in `interpreter.rs`.  The catch-all
arm handles `Return` by recursion and panics (`panic!("cannot handle ..")`)
on the `Break`/`Continue` sentinels; the panic is modelled by `none`. -/
def coerceToI32 : NaslValue → Option Int
  | .String _ => some 1
  | .Number x => some x
  | .Array _ => some 1
  | .Dict _ => some 1
  | .Boolean x => some (if x then 1 else 0)
  | .AttackCategory x => some (Int.ofNat x)
  | .Null => some 0
  | .Exit x => some x
  | .Return x => coerceToI32 x
  | .Break => none
  | .Continue => none

mutual

/-- `impl ToString for NaslValue` in `interpreter.rs`.  The rendering of
`AttackCategory` delegates to `Keyword::ACT(..).to_string()` whose code is
in `nasl-syntax/token.rs` (outside the inspected sources); it is rendered
from the ordinal here, and no verified property depends on it. -/
def naslToString : NaslValue → String
  | .String x => x
  | .Number x => toString x
  | .Array x => String.intercalate "," (arrayEntryStrings 0 x)
  | .Dict x => String.intercalate "," (dictEntryStrings x)
  | .Boolean x => if x then "true" else "false"
  | .Null => "\x00"
  | .Exit rc => "exit(" ++ toString rc ++ ")"
  | .Return rc => "return(" ++ naslToString rc ++ ")"
  | .AttackCategory c => "ACT " ++ toString c
  | .Continue => ""
  | .Break => ""

/-- The enumerated `index: value` renderings of an array (the
`.iter().enumerate().map(..)` step of `ToString`). -/
def arrayEntryStrings : Nat → List NaslValue → List String
  | _, [] => []
  | i, v :: rest => (toString i ++ ": " ++ naslToString v) :: arrayEntryStrings (i + 1) rest

/-- The `key: value` renderings of a dict. -/
def dictEntryStrings : List (String × NaslValue) → List String
  | [] => []
  | (k, v) :: rest => (k ++ ": " ++ naslToString v) :: dictEntryStrings rest

end

/-- `impl From<NaslValue> for Vec<NaslValue>` in `interpreter.rs`
(the foreach-iteration sequence coercion). -/
def coerceToSeq : NaslValue → List NaslValue
  | .Array ret => ret
  | .Dict ret => ret.map Prod.snd
  | .Boolean b => [.Boolean b]
  | .Number n => [.Number n]
  | .String ret => ret.toList.map fun c => .String (String.mk [c])
  | _ => []

/-- Spec-side boolean coercion table, transcribed from the wording of
spec section 4.A (and claim C8) for comparison with the source-derived
`coerceToBool`. -/
def specBoolTable : NaslValue → Bool
  | .String s => decide (s ≠ "" ∧ s ≠ "0")
  | .Number n => decide (n ≠ 0)
  | .Exit n => decide (n ≠ 0)
  | .Boolean b => b
  | .Null => false
  | .Break => false
  | .Continue => false
  | .Array a => !a.isEmpty
  | .Dict d => !d.isEmpty
  | .AttackCategory _ => true
  | .Return v => specBoolTable v

/-- Spec-side integer coercion table transcribed from claim C10:
composite values map to 1, `Null` to 0, numbers and exit codes to
themselves, booleans to 0/1, categories to their ordinal, `Return`
recurses, and the `Break`/`Continue` sentinels have no integer value
(the code panics there, modelled as `none`). -/
def specI32Table : NaslValue → Option Int
  | .String _ => some 1
  | .Array _ => some 1
  | .Dict _ => some 1
  | .Null => some 0
  | .Number n => some n
  | .Exit n => some n
  | .Boolean b => some (if b then 1 else 0)
  | .AttackCategory c => some (Int.ofNat c)
  | .Return v => specI32Table v
  | .Break => none
  | .Continue => none

/-- Statement tree consumed by the evaluator, from the variant list the
`resolve` dispatcher in `interpreter.rs` matches on.  The parser and
tokenizer live outside the inspected sources; identifier tokens are
therefore embedded already resolved to their source text (`Variable`,
`Call`, `Array`, `ForEach`, declarations carry a `String` where the
source slices `self.code[Range::from(token)]`), and `Primitive` carries
the value the `TryFrom<(&str, Token)>` literal conversion produces.
The `Assign` and `Operator` variants are omitted: their handlers
(`assign.rs`, `operator.rs`) are not among the inspected sources and no
verified property depends on them. -/
inductive Statement where
  | Array (name : String) (position : Option Statement)
  | Exit (s : Statement)
  | Return (s : Statement)
  | Include
  | NamedParameter (name : String) (value : Statement)
  | For (init cond step body : Statement)
  | While (cond body : Statement)
  | Repeat (body cond : Statement)
  | ForEach (var : String) (iterable body : Statement)
  | FunctionDeclaration (name : String) (args : List Statement) (body : Statement)
  | Primitive (v : NaslValue)
  | Variable (name : String)
  | Call (name : String) (args : Statement)
  | Declare
  | Parameter (args : List Statement)
  | If (cond thenB : Statement) (elseB : Option Statement)
  | Block (stmts : List Statement)
  | NoOp
  | EoF
  | AttackCategory (c : ACT)
  | Continue
  | Break

/-- `enum Definition` in `context.rs` (called `ContextType` by
`declare.rs`): what a frame binds a name to. -/
inductive Definition where
  | Function (params : List String) (body : Statement)
  | Value (v : NaslValue)

/-- Key lookup in an association list, modelling `HashMap::get`:
the first (and only, since inserts overwrite) entry for the key. -/
def assocGet {α : Type} : List (String × α) → String → Option α
  | [], _ => none
  | (k, v) :: rest, key => if k = key then some v else assocGet rest key

/-- Key insert in an association list, modelling `HashMap::insert`:
overwrites an existing entry for the key, otherwise appends. -/
def assocInsert {α : Type} : List (String × α) → String → α → List (String × α)
  | [], key, v => [(key, v)]
  | (k, w) :: rest, key, v =>
    if k = key then (k, v) :: rest else (k, w) :: assocInsert rest key v

/-- `struct NaslContext` in `context.rs`: a scoped symbol table with its
own register index (`id`), an optional parent index, and the name map.
The `NaslContextType` `Block`/`Function` split only feeds the unused
`positional` accessor (the call dispatcher in `call.rs` passes a plain
named map and routes positional arguments through `_FCT_ANON_ARGS`), so
the frame carries the named map directly. -/
structure Frame where
  parent : Option Nat
  id : Nat
  values : List (String × Definition)

/-- `struct Register` in `context.rs`: the append-only stack of frames. -/
structure Register where
  blocks : List Frame

/-- `Register::new`. -/
def Register.new : Register := { blocks := [] }

/-- `Register::index`: the next index. -/
def Register.index (r : Register) : Nat := r.blocks.length

/-- `Register::create_root`: pushes a frame with no parent and id 0.
Note that the source pushes unconditionally; it has no failure path and
does not check whether a root already exists. -/
def Register.create_root (r : Register) (initial : List (String × Definition)) : Register :=
  { blocks := r.blocks ++ [{ parent := none, id := 0, values := initial }] }

/-- `Register::create_child`: pushes a frame whose parent is the given
frame's id. -/
def Register.create_child (r : Register) (parent : Frame)
    (values : List (String × Definition)) : Register :=
  { blocks := r.blocks ++ [{ parent := some parent.id, id := r.index, values := values }] }

/-- `Register::create_root_child`: pushes a frame whose parent is
index 0, used for function calls so that callees cannot read
caller-local bindings. -/
def Register.create_root_child (r : Register) (values : List (String × Definition)) : Register :=
  { blocks := r.blocks ++ [{ parent := some 0, id := r.index, values := values }] }

/-- `Register::drop_last`: pops the current frame. -/
def Register.drop_last (r : Register) : Register :=
  { blocks := r.blocks.dropLast }

/-- `NaslContext::named` in `context.rs`: look in the frame at index `i`,
then follow parent links.  The parent chain is data, not structure, so
the traversal takes fuel; `none` means the walk was still running when
the fuel ran out (or indexed out of bounds, which in Rust is a panic),
`some found` is the completed lookup. -/
def lookupNamed (r : Register) : Nat → Nat → String → Option (Option Definition)
  | 0, _, _ => none
  | fuel + 1, i, name =>
    match r.blocks[i]? with
    | none => none
    | some f =>
      match assocGet f.values name with
      | some d => some (some d)
      | none =>
        match f.parent with
        | some p => lookupNamed r fuel p name
        | none => some none

/-- `Register::named`: lookup starting from the last (current) frame.
A frame at index `i` reached only through strictly decreasing parent
links needs at most `i + 1` steps, so `blocks.length` fuel is exact for
every register the interpreter builds; the fallback `none` covers the
out-of-fuel marker, which on such registers is never hit. -/
def Register.named (r : Register) (name : String) : Option Definition :=
  match lookupNamed r r.blocks.length (r.blocks.length - 1) name with
  | some res => res
  | none => none

/-- The frame-list part of `Register::last_mut().add_named(..)`:
rewrite the last frame with one more binding. -/
def addNamedLastFrames : List Frame → String → Definition → List Frame
  | [], _, _ => []
  | [f], k, v => [{ f with values := assocInsert f.values k v }]
  | f :: g :: rest, k, v => f :: addNamedLastFrames (g :: rest) k v

/-- `Register::last_mut().add_named(name, value)`: insert into the
current frame.  (On an empty register the Rust unwrap would panic; the
interpreter always holds at least the root frame.) -/
def Register.addNamedLast (r : Register) (k : String) (v : Definition) : Register :=
  { blocks := addNamedLastFrames r.blocks k v }

/-- `Register::add_global(name, value)`: insert into the root frame
(index 0). -/
def Register.add_global (r : Register) (k : String) (v : Definition) : Register :=
  { blocks :=
      match r.blocks with
      | [] => []
      | f :: rest => { f with values := assocInsert f.values k v } :: rest }

/-- Evaluation outcome.  `ok`/`err` are the two sides of
`InterpretResult = Result<NaslValue, InterpretError>`; `abort` models a
Rust panic (`todo!()`, `panic!(..)`); `timeout` is the model-only
out-of-fuel marker for the non-structural recursion through loop
iterations and stored call bodies. -/
inductive Outcome where
  | ok (v : NaslValue)
  | err (reason : String)
  | abort (msg : String)
  | timeout

/-- The evaluator context: the builtin registry (`crate::lookup`), an
external collaborator.  A handler receives the register as pushed for
the call (the opaque script key and storage sink of
`function(self.key, self.storage, &self.registrat)` are absorbed into
the handler itself) and returns a value or a builtin error. -/
structure Ctx where
  builtins : String → Option (Register → Except String NaslValue)

/-- A context with no builtin functions. -/
def noBuiltins : Ctx := { builtins := fun _ => none }

/-- The reserved name bound to the positional arguments of every call. -/
def anonArgsName : String := "_FCT_ANON_ARGS"

/-- The `i32 as usize` cast used for array indexing: non-negative values
are taken as-is, negative ones sign-extend and reinterpret on a 64-bit
host. -/
def rustUsize (n : Int) : Nat :=
  if 0 ≤ n then n.toNat else (2 ^ 64 + n).toNat

/-- The default-parameter loop of `CallExtension::call` (`call.rs`
lines 69-80): for each declared parameter, if `registrat.named` finds
nothing — searching the current call frame and then its parent chain —
bind it in the current frame to `Null`. -/
def prepareDefaults : List String → Register → Register
  | [], r => r
  | p :: rest, r =>
    match r.named p with
    | none => prepareDefaults rest (r.addNamedLast p (.Value .Null))
    | some _ => prepareDefaults rest r

/-- The parameter-name collection loop of
`DeclareFunctionExtension::declare_function` (`declare.rs`): every
argument must be a plain variable; `none` is the
"only variable supported" error on anything else. -/
def collectParamNames : List Statement → Option (List String)
  | [] => some []
  | .Variable t :: rest => (collectParamNames rest).map (t :: ·)
  | _ :: _ => none

/-- `declare_function` in `declare.rs`: bind
`name → Function(parameter-names, body)` in the root frame; the
declaration itself evaluates to `Null`. -/
def declareFunction (r : Register) (name : String) (args : List Statement)
    (body : Statement) : Outcome × Register :=
  match collectParamNames args with
  | none => (.err "only variable supported", r)
  | some names => (.ok .Null, r.add_global name (.Function names body))

/-- Result of the call-argument processing loop in `call.rs`: on
success the named map, the positional list and the threaded register;
`fail` carries a short-circuited outcome. -/
inductive ArgsResult where
  | ok (named : List (String × Definition)) (position : List NaslValue) (r : Register)
  | fail (o : Outcome) (r : Register)

mutual

/-- `Interpreter::resolve` in `interpreter.rs`: the statement
dispatcher.  The recursion of the source (through subexpressions,
stored call bodies and loop iterations) is made total with a fuel
parameter consumed at every recursive step; `timeout` marks exhausted
fuel and never occurs for the concrete runs below. -/
def resolve : Nat → Ctx → Register → Statement → Outcome × Register
  | 0, _, r, _ => (.timeout, r)
  | fuel + 1, c, r, stmt =>
    match stmt with
    | .Array name pos =>
      match r.named name with
      | none => (.err (name ++ " not found."), r)
      | some val =>
        match pos, val with
        | none, .Value v => (.ok v, r)
        | some p, .Value (.Array x) =>
          match resolve fuel c r p with
          | (.ok posv, r1) =>
            match coerceToI32 posv with
            | none => (.abort "cannot handle", r1)
            | some n =>
              match x[rustUsize n]? with
              | some result => (.ok result, r1)
              | none => (.err ("positiong " ++ toString (rustUsize n) ++ " not found"), r1)
          | other => other
        | some p, .Value (.Dict x) =>
          match resolve fuel c r p with
          | (.ok posv, r1) =>
            match assocGet x (naslToString posv) with
            | some result => (.ok result, r1)
            | none => (.err (naslToString posv ++ " not found."), r1)
          | other => other
        | _, _ => (.err "Internal error statement", r)
    | .Exit s =>
      match resolve fuel c r s with
      | (.ok rc, r1) =>
        match rc with
        | .Number n => (.ok (.Exit n), r1)
        | _ => (.err "expected numeric value", r1)
      | other => other
    | .Return s =>
      match resolve fuel c r s with
      | (.ok rc, r1) => (.ok (.Return rc), r1)
      | other => other
    | .Include => (.abort "not yet implemented", r)
    | .NamedParameter _ _ => (.abort "not yet implemented", r)
    | .For init cnd step body =>
      match resolve fuel c r init with
      | (.ok _, r1) => forLoopRun fuel c r1 cnd step body
      | other => other
    | .While cnd body => whileLoopRun fuel c r cnd body
    | .Repeat body cnd => repeatLoopRun fuel c r body cnd
    | .ForEach v it body =>
      match resolve fuel c r it with
      | (.ok itv, r1) => forEachRun fuel c r1 v (coerceToSeq itv) body
      | other => other
    | .FunctionDeclaration name args body => declareFunction r name args body
    | .Primitive v => (.ok v, r)
    | .Variable name =>
      match r.named name with
      | none => (.err ("variable " ++ name ++ " not found"), r)
      | some (.Function _ _) => (.abort "not yet implemented", r)
      | some (.Value v) => (.ok v, r)
    | .Call name args => callFn fuel c r name args
    | .Declare => (.abort "not yet implemented", r)
    | .Parameter xs => resolveList fuel c r xs []
    | .If cnd thenB elseB =>
      match resolve fuel c r cnd with
      | (.ok v, r1) =>
        if coerceToBool v then resolve fuel c r1 thenB
        else
          match elseB with
          | some e => resolve fuel c r1 e
          | none => (.ok .Null, r1)
      | other => other
    | .Block stmts => resolveBlock fuel c r stmts
    | .NoOp => (.ok .Null, r)
    | .EoF => (.abort "not yet implemented", r)
    | .AttackCategory cat => (.ok (.AttackCategory cat), r)
    | .Continue => (.ok .Continue, r)
    | .Break => (.ok .Break, r)

/-- The `Block` loop of `resolve`: children in order, short-circuiting
on the first control sentinel; a fully traversed block is `Null`. -/
def resolveBlock : Nat → Ctx → Register → List Statement → Outcome × Register
  | _, _, r, [] => (.ok .Null, r)
  | 0, _, r, _ :: _ => (.timeout, r)
  | fuel + 1, c, r, s :: rest =>
    match resolve fuel c r s with
    | (.ok v, r1) =>
      match v with
      | .Exit rc => (.ok (.Exit rc), r1)
      | .Return rc => (.ok (.Return rc), r1)
      | .Break => (.ok .Break, r1)
      | .Continue => (.ok .Continue, r1)
      | _ => resolveBlock fuel c r1 rest
    | other => other

/-- The `Parameter` loop of `resolve`: children left-to-right into an
`Array`. -/
def resolveList : Nat → Ctx → Register → List Statement → List NaslValue → Outcome × Register
  | _, _, r, [], acc => (.ok (.Array acc), r)
  | 0, _, r, _ :: _, _ => (.timeout, r)
  | fuel + 1, c, r, s :: rest, acc =>
    match resolve fuel c r s with
    | (.ok v, r1) => resolveList fuel c r1 rest (acc ++ [v])
    | other => other

/-- The argument-processing loop of `CallExtension::call` (`call.rs`
lines 21-42): named-parameter constructs go into the named map
(overwriting on collision, as `HashMap::insert` does), everything else
is evaluated and appended to the positional list. -/
def evalCallArgs : Nat → Ctx → Register → List Statement →
    List (String × Definition) → List NaslValue → ArgsResult
  | _, _, r, [], named, position => .ok named position r
  | 0, _, r, _ :: _, _, _ => .fail .timeout r
  | fuel + 1, c, r, p :: rest, named, position =>
    match p with
    | .NamedParameter token val =>
      match resolve fuel c r val with
      | (.ok v, r1) => evalCallArgs fuel c r1 rest (assocInsert named token (.Value v)) position
      | (o, r1) => .fail o r1
    | val =>
      match resolve fuel c r val with
      | (.ok v, r1) => evalCallArgs fuel c r1 rest named (position ++ [v])
      | (o, r1) => .fail o r1

/-- `CallExtension::call` in `call.rs`.  Mirrors the source exactly,
including its early returns: the `?` on the register lookup
(`function .. not found`) and the `?` on the body evaluation return
from `call` before `drop_last` runs, so those two paths leave the
pushed call frame on the register; the builtin paths, the successful
user-function path and the `unexpected ContextType` path flow into
`result` and are followed by `drop_last`. -/
def callFn : Nat → Ctx → Register → String → Statement → Outcome × Register
  | 0, _, r, _, _ => (.timeout, r)
  | fuel + 1, c, r, name, argsStmt =>
    match argsStmt with
    | .Parameter params =>
      match evalCallArgs fuel c r params [] [] with
      | .fail o r1 => (o, r1)
      | .ok named position r1 =>
        let r2 := r1.create_root_child
          (assocInsert named anonArgsName (.Value (.Array position)))
        match c.builtins name with
        | some handler =>
          match handler r2 with
          | .ok value => (.ok value, r2.drop_last)
          | .error x =>
            (.err ("unable to call function " ++ name ++ ": " ++ x), r2.drop_last)
        | none =>
          match r2.named name with
          | none => (.err ("function " ++ name ++ " not found"), r2)
          | some (.Function fnparams stmt) =>
            match resolve fuel c (prepareDefaults fnparams r2) stmt with
            | (.ok v, r4) =>
              match v with
              | .Return x => (.ok x, r4.drop_last)
              | a => (.ok a, r4.drop_last)
            | (o, r4) => (o, r4)
          | some (.Value _) => (.err "unexpected ContextType", r2.drop_last)
    | _ => (.err "invalid statement type for function parameters", r)

/-- The iteration of `LoopExtension::for_loop` after the initial
assignment: condition, body, sentinel handling, step. -/
def forLoopRun : Nat → Ctx → Register → Statement → Statement → Statement → Outcome × Register
  | 0, _, r, _, _, _ => (.timeout, r)
  | fuel + 1, c, r, cnd, step, body =>
    match resolve fuel c r cnd with
    | (.ok cv, r1) =>
      if coerceToBool cv then
        match resolve fuel c r1 body with
        | (.ok bv, r2) =>
          match bv with
          | .Break => (.ok .Null, r2)
          | .Exit code => (.ok (.Exit code), r2)
          | .Return val => (.ok (.Return val), r2)
          | _ =>
            match resolve fuel c r2 step with
            | (.ok _, r3) => forLoopRun fuel c r3 cnd step body
            | other => other
        | other => other
      else (.ok .Null, r1)
    | other => other

/-- `LoopExtension::while_loop`. -/
def whileLoopRun : Nat → Ctx → Register → Statement → Statement → Outcome × Register
  | 0, _, r, _, _ => (.timeout, r)
  | fuel + 1, c, r, cnd, body =>
    match resolve fuel c r cnd with
    | (.ok cv, r1) =>
      if coerceToBool cv then
        match resolve fuel c r1 body with
        | (.ok bv, r2) =>
          match bv with
          | .Break => (.ok .Null, r2)
          | .Exit code => (.ok (.Exit code), r2)
          | .Return val => (.ok (.Return val), r2)
          | _ => whileLoopRun fuel c r2 cnd body
        | other => other
      else (.ok .Null, r1)
    | other => other

/-- `LoopExtension::repeat_loop`: body first, then the condition. -/
def repeatLoopRun : Nat → Ctx → Register → Statement → Statement → Outcome × Register
  | 0, _, r, _, _ => (.timeout, r)
  | fuel + 1, c, r, body, cnd =>
    match resolve fuel c r body with
    | (.ok bv, r1) =>
      match bv with
      | .Break => (.ok .Null, r1)
      | .Exit code => (.ok (.Exit code), r1)
      | .Return val => (.ok (.Return val), r1)
      | _ =>
        match resolve fuel c r1 cnd with
        | (.ok cv, r2) =>
          if coerceToBool cv then repeatLoopRun fuel c r2 body cnd
          else (.ok .Null, r2)
        | other => other
    | other => other

/-- The element iteration of `LoopExtension::for_each_loop`: bind the
iteration variable in the current frame, evaluate the body, handle
sentinels. -/
def forEachRun : Nat → Ctx → Register → String → List NaslValue → Statement → Outcome × Register
  | _, _, r, _, [], _ => (.ok .Null, r)
  | 0, _, r, _, _ :: _, _ => (.timeout, r)
  | fuel + 1, c, r, nm, v :: rest, body =>
    match resolve fuel c (r.addNamedLast nm (.Value v)) body with
    | (.ok bv, r2) =>
      match bv with
      | .Break => (.ok .Null, r2)
      | .Exit code => (.ok (.Exit code), r2)
      | .Return val => (.ok (.Return val), r2)
      | _ => forEachRun fuel c r2 nm rest body
    | other => other

end

/-- The four control sentinels that make enclosing constructs
short-circuit: `Return`, `Exit`, `Break`, `Continue`. -/
def isControlSentinel : NaslValue → Bool
  | .Return _ => true
  | .Exit _ => true
  | .Break => true
  | .Continue => true
  | _ => false

/-- Whether a call-site argument is the named-parameter construct
`k: v` (everything else is positional). -/
def isNamedArg : Statement → Bool
  | .NamedParameter _ _ => true
  | _ => false

/-- Whether an outcome is an `InterpretError`. -/
def Outcome.isErr : Outcome → Bool
  | .err _ => true
  | _ => false

/-- A prefix of block statements that all evaluate successfully to
non-sentinel values, mirroring the fuel discipline of `resolveBlock`
step for step; returns the remaining fuel and the reached register. -/
def runsClean : Nat → Ctx → Register → List Statement → Option (Nat × Register)
  | fuel, _, r, [] => some (fuel, r)
  | 0, _, _, _ :: _ => none
  | fuel + 1, c, r, s :: rest =>
    match resolve fuel c r s with
    | (.ok v, r1) => if isControlSentinel v then none else runsClean fuel c r1 rest
    | _ => none

/-- Spec-side reading of step 2 of the call-dispatch algorithm
(spec section 4.E): walk the arguments in call-site order, evaluate
each one, and collect exactly the values of the positional (unnamed)
arguments, in order.  Stated independently of the named map so the
source-side `evalCallArgs` can be compared against it. -/
def specPositionalArgs : Nat → Ctx → Register → List Statement → Option (List NaslValue × Register)
  | _, _, r, [] => some ([], r)
  | 0, _, _, _ :: _ => none
  | fuel + 1, c, r, a :: rest =>
    match a with
    | .NamedParameter _ val =>
      match resolve fuel c r val with
      | (.ok _, r1) => specPositionalArgs fuel c r1 rest
      | _ => none
    | val =>
      match resolve fuel c r val with
      | (.ok v, r1) =>
        match specPositionalArgs fuel c r1 rest with
        | some (vs, r2) => some (v :: vs, r2)
        | none => none
      | _ => none

/-- Pointwise agreement of two optional frames on everything a lookup
of the name `n` can observe: the map entry for `n` and the parent
link. -/
def frameAgree (n : String) : Option Frame → Option Frame → Prop
  | none, none => True
  | some f, some g => assocGet f.values n = assocGet g.values n ∧ f.parent = g.parent
  | _, _ => False

/-- The entry for `p` in the current (last) frame's map. -/
def lastValuesGet (r : Register) (p : String) : Option Definition :=
  match r.blocks.getLast? with
  | none => none
  | some f => assocGet f.values p

/-- Registers whose frames were all created through the `Register`
creation operations (claim C9's universe): starting from
`Register::new`, any interleaving of `create_root`, `create_child`
with a parent taken from the register, `create_root_child`, and
`drop_last`. -/
inductive Built : Register → Prop where
  | empty : Built Register.new
  | root (r : Register) (init : List (String × Definition)) :
      Built r → Built (r.create_root init)
  | child (r : Register) (f : Frame) (init : List (String × Definition)) (i : Nat) :
      Built r → r.blocks[i]? = some f → Built (r.create_child f init)
  | rootChild (r : Register) (init : List (String × Definition)) :
      Built r → Built (r.create_root_child init)
  | drop (r : Register) : Built r → Built r.drop_last

/-- As `Built`, but `create_root_child` is only applied to a register
that already holds a frame (the interpreter guarantees this: the root
is created at construction, before any call is dispatched).  Without
the guard, `create_root_child` on the empty register produces a frame
at index 0 whose parent is index 0 — see the counterexample to
claim C9. -/
inductive BuiltSafe : Register → Prop where
  | empty : BuiltSafe Register.new
  | root (r : Register) (init : List (String × Definition)) :
      BuiltSafe r → BuiltSafe (r.create_root init)
  | child (r : Register) (f : Frame) (init : List (String × Definition)) (i : Nat) :
      BuiltSafe r → r.blocks[i]? = some f → BuiltSafe (r.create_child f init)
  | rootChild (r : Register) (init : List (String × Definition)) :
      BuiltSafe r → r.blocks ≠ [] → BuiltSafe (r.create_root_child init)
  | drop (r : Register) : BuiltSafe r → BuiltSafe r.drop_last

/-- The register well-formedness that drives lookup termination: every
frame's stored id is at most its index, and every parent link points
strictly below the frame's own index. -/
def RegInv (r : Register) : Prop :=
  ∀ (i : Nat) (f : Frame), r.blocks[i]? = some f →
    f.id ≤ i ∧ ∀ p, f.parent = some p → p < i

/-- The register built by `create_root_child` on the empty register:
its only frame sits at index 0 with parent index 0. -/
def selfParentReg : Register := Register.new.create_root_child []

/-- Register holding only the root frame, with no bindings. -/
def rootOnlyReg : Register := Register.new.create_root []

/-- The call statement `test()`. -/
def callTestStmt : Statement := .Call "test" (.Parameter [])

/-- Register for the C2 counterexample: the root binds the global
`x = 42` and the user function `test(x) { return x; }`. -/
def shadowedParamReg : Register := Register.new.create_root
  [("x", .Value (.Number 42)),
   ("test", .Function ["x"] (.Block [.Return (.Variable "x")]))]

/-- Register for the C5 counterexample: the root binds `f` to a
user-defined function. -/
def fnBindingReg : Register := Register.new.create_root [("f", .Function [] .NoOp)]

/-- Register for the C10 sentinel-indexing run: the root binds `xs` to
a one-element array. -/
def arrayBindingReg : Register := Register.new.create_root
  [("xs", .Value (.Array [.Number 7]))]

/-- Register with a root (binding `g`) and a caller-local frame
(binding `y`), used to witness call-frame isolation. -/
def callerLocalReg : Register :=
  (Register.new.create_root [("g", .Value (.Number 1))]).create_root_child
    [("y", .Value (.Number 5))]

/-- A register reached by root creation followed by a call-frame push,
used to witness the C9 invariant. -/
def rootThenChildReg : Register := rootOnlyReg.create_root_child []

theorem assocGet_insert_self {α : Type} (m : List (String × α)) (k : String) (v : α) :
    assocGet (assocInsert m k v) k = some v := by
  induction m with
  | nil => simp [assocInsert, assocGet]
  | cons hd rest ih =>
    obtain ⟨k2, w⟩ := hd
    by_cases hk : k2 = k <;> simp [assocInsert, assocGet, hk, ih]

theorem assocGet_insert_other {α : Type} (m : List (String × α)) (k key : String) (v : α)
    (h : k ≠ key) : assocGet (assocInsert m k v) key = assocGet m key := by
  induction m with
  | nil => simp [assocInsert, assocGet, h]
  | cons hd rest ih =>
    obtain ⟨k2, w⟩ := hd
    by_cases hk : k2 = k
    · subst hk
      simp [assocInsert, assocGet, h]
    · by_cases hk2 : k2 = key
      · subst hk2
        simp [assocInsert, assocGet, hk, Ne.symm h]
      · simp [assocInsert, assocGet, hk, hk2, ih]

theorem addNamedLastFrames_concat (cs : List Frame) (f : Frame) (k : String) (v : Definition) :
    addNamedLastFrames (cs ++ [f]) k v =
      cs ++ [{ f with values := assocInsert f.values k v }] := by
  induction cs with
  | nil => rfl
  | cons c rest ih =>
    cases rest with
    | nil => rfl
    | cons c2 rest2 =>
      simpa [addNamedLastFrames] using ih

theorem lookupNamed_congr (r r2 : Register) (n : String)
    (h : ∀ (i : Nat), frameAgree n (r.blocks[i]?) (r2.blocks[i]?)) :
    ∀ fuel i, lookupNamed r fuel i n = lookupNamed r2 fuel i n := by
  intro fuel
  induction fuel with
  | zero => intro i; rfl
  | succ m ih =>
    intro i
    have hi := h i
    cases hr : r.blocks[i]? with
    | none =>
      cases hr2 : r2.blocks[i]? with
      | none => simp [lookupNamed, hr, hr2]
      | some g => rw [hr, hr2] at hi; exact absurd hi (by simp [frameAgree])
    | some f =>
      cases hr2 : r2.blocks[i]? with
      | none => rw [hr, hr2] at hi; exact absurd hi (by simp [frameAgree])
      | some g =>
        rw [hr, hr2] at hi
        obtain ⟨hv, hp⟩ := hi
        simp only [lookupNamed, hr, hr2, hv, hp]
        cases assocGet g.values n with
        | some d => rfl
        | none =>
          cases g.parent with
          | some p => exact ih p
          | none => rfl

theorem named_concat_found (bs : List Frame) (f : Frame) (n : String) (d : Definition)
    (h : assocGet f.values n = some d) :
    Register.named ⟨bs ++ [f]⟩ n = some d := by
  show (match lookupNamed ⟨bs ++ [f]⟩ (bs ++ [f]).length ((bs ++ [f]).length - 1) n with
        | some res => res | none => none) = some d
  have hl : (bs ++ [f]).length = bs.length + 1 := by simp
  rw [hl]
  simp only [Nat.add_sub_cancel, lookupNamed, List.getElem?_concat_length, h]

theorem frameAgree_refl (n : String) (o : Option Frame) : frameAgree n o o := by
  cases o <;> simp [frameAgree]

theorem lastValuesGet_concat (bs : List Frame) (f : Frame) (p : String) :
    lastValuesGet ⟨bs ++ [f]⟩ p = assocGet f.values p := by
  simp [lastValuesGet, List.getLast?_concat]

theorem named_of_lastValuesGet (r : Register) (p : String) (d : Definition)
    (h : lastValuesGet r p = some d) : Register.named r p = some d := by
  rcases List.eq_nil_or_concat r.blocks with hnil | ⟨cs, f, hcat⟩
  · rw [lastValuesGet, hnil] at h
    simp at h
  · rw [List.concat_eq_append] at hcat
    have hr : r = ⟨cs ++ [f]⟩ := by cases r; simpa using hcat
    rw [hr] at h ⊢
    rw [lastValuesGet_concat] at h
    exact named_concat_found cs f p d h

theorem lastValuesGet_addNamedLast_self (r : Register) (k : String) (v : Definition)
    (hne : r.blocks ≠ []) : lastValuesGet (r.addNamedLast k v) k = some v := by
  rcases List.eq_nil_or_concat r.blocks with hnil | ⟨cs, f, hcat⟩
  · exact absurd hnil hne
  · rw [List.concat_eq_append] at hcat
    have hr : r = ⟨cs ++ [f]⟩ := by cases r; simpa using hcat
    rw [hr]
    show lastValuesGet ⟨addNamedLastFrames (cs ++ [f]) k v⟩ k = some v
    rw [addNamedLastFrames_concat, lastValuesGet_concat]
    exact assocGet_insert_self f.values k v

theorem lastValuesGet_addNamedLast_other (r : Register) (k p : String) (v : Definition)
    (h : k ≠ p) : lastValuesGet (r.addNamedLast k v) p = lastValuesGet r p := by
  rcases List.eq_nil_or_concat r.blocks with hnil | ⟨cs, f, hcat⟩
  · have hr : r = ⟨[]⟩ := by cases r; simpa using hnil
    rw [hr]; rfl
  · rw [List.concat_eq_append] at hcat
    have hr : r = ⟨cs ++ [f]⟩ := by cases r; simpa using hcat
    rw [hr]
    show lastValuesGet ⟨addNamedLastFrames (cs ++ [f]) k v⟩ p = _
    rw [addNamedLastFrames_concat, lastValuesGet_concat, lastValuesGet_concat]
    exact assocGet_insert_other f.values k p v h

theorem named_addNamedLast_other (r : Register) (k p : String) (v : Definition)
    (h : k ≠ p) : Register.named (r.addNamedLast k v) p = Register.named r p := by
  rcases List.eq_nil_or_concat r.blocks with hnil | ⟨cs, f, hcat⟩
  · have hr : r = ⟨[]⟩ := by cases r; simpa using hnil
    rw [hr]; rfl
  · rw [List.concat_eq_append] at hcat
    have hr : r = ⟨cs ++ [f]⟩ := by cases r; simpa using hcat
    rw [hr]
    have hframes : (Register.addNamedLast ⟨cs ++ [f]⟩ k v).blocks
        = cs ++ [{ f with values := assocInsert f.values k v }] :=
      addNamedLastFrames_concat cs f k v
    have hagree : ∀ (i : Nat),
        frameAgree p ((Register.addNamedLast ⟨cs ++ [f]⟩ k v).blocks[i]?)
          ((⟨cs ++ [f]⟩ : Register).blocks[i]?) := by
      intro i
      show frameAgree p _ ((cs ++ [f])[i]?)
      rw [hframes]
      rcases Nat.lt_trichotomy i cs.length with hi | hi | hi
      · rw [List.getElem?_append_left hi, List.getElem?_append_left hi]
        exact frameAgree_refl p _
      · subst hi
        rw [List.getElem?_concat_length, List.getElem?_concat_length]
        exact ⟨assocGet_insert_other f.values k p v h, rfl⟩
      · rw [List.getElem?_eq_none (by simpa using hi), List.getElem?_eq_none (by simpa using hi)]
        trivial
    have hlk := lookupNamed_congr (Register.addNamedLast ⟨cs ++ [f]⟩ k v) ⟨cs ++ [f]⟩ p hagree
    have hlen : (Register.addNamedLast ⟨cs ++ [f]⟩ k v).blocks.length = (cs ++ [f]).length := by
      rw [hframes]; simp
    show (match lookupNamed (Register.addNamedLast ⟨cs ++ [f]⟩ k v)
          (Register.addNamedLast ⟨cs ++ [f]⟩ k v).blocks.length
          ((Register.addNamedLast ⟨cs ++ [f]⟩ k v).blocks.length - 1) p with
        | some res => res | none => none)
      = (match lookupNamed ⟨cs ++ [f]⟩ (cs ++ [f]).length ((cs ++ [f]).length - 1) p with
        | some res => res | none => none)
    rw [hlen, hlk]

theorem addNamedLast_ne_nil (r : Register) (k : String) (v : Definition)
    (h : r.blocks ≠ []) : (r.addNamedLast k v).blocks ≠ [] := by
  rcases List.eq_nil_or_concat r.blocks with hnil | ⟨cs, f, hcat⟩
  · exact absurd hnil h
  · rw [List.concat_eq_append] at hcat
    have hr : r = ⟨cs ++ [f]⟩ := by cases r; simpa using hcat
    rw [hr]
    show addNamedLastFrames (cs ++ [f]) k v ≠ []
    rw [addNamedLastFrames_concat]
    simp

theorem prepareDefaults_keeps_last (ps : List String) :
    ∀ (r : Register) (p : String) (d : Definition),
    lastValuesGet r p = some d →
    lastValuesGet (prepareDefaults ps r) p = some d := by
  induction ps with
  | nil => intro r p d h; exact h
  | cons q rest ih =>
    intro r p d h
    show lastValuesGet
      (match Register.named r q with
       | none => prepareDefaults rest (r.addNamedLast q (.Value .Null))
       | some _ => prepareDefaults rest r) p = some d
    cases hq : Register.named r q with
    | some w => exact ih r p d h
    | none =>
      by_cases hqp : q = p
      · subst hqp
        rw [named_of_lastValuesGet r q d h] at hq
        cases hq
      · exact ih _ p d (by rw [lastValuesGet_addNamedLast_other r q p _ hqp]; exact h)

theorem prepareDefaults_binds_unresolved (ps : List String) :
    ∀ (r : Register) (p : String), r.blocks ≠ [] → p ∈ ps →
    Register.named r p = none →
    Register.named (prepareDefaults ps r) p = some (.Value .Null) := by
  induction ps with
  | nil => intro r p _ hmem; cases hmem
  | cons q rest ih =>
    intro r p hne hmem hnone
    show Register.named
      (match Register.named r q with
       | none => prepareDefaults rest (r.addNamedLast q (.Value .Null))
       | some _ => prepareDefaults rest r) p = some (.Value .Null)
    cases hq : Register.named r q with
    | some w =>
      rcases List.mem_cons.mp hmem with hpq | hrest
      · subst hpq
        rw [hnone] at hq
        cases hq
      · exact ih r p hne hrest hnone
    | none =>
      by_cases hqp : q = p
      · subst hqp
        have hbind : lastValuesGet (r.addNamedLast q (.Value .Null)) q
            = some (.Value .Null) := lastValuesGet_addNamedLast_self r q _ hne
        have hkeep := prepareDefaults_keeps_last rest (r.addNamedLast q (.Value .Null))
          q _ hbind
        exact named_of_lastValuesGet _ q _ hkeep
      · rcases List.mem_cons.mp hmem with hpq | hrest
        · exact absurd hpq.symm hqp
        · exact ih (r.addNamedLast q (.Value .Null)) p
            (addNamedLast_ne_nil r q _ hne) hrest
            (by rw [named_addNamedLast_other r q p _ hqp]; exact hnone)

theorem create_root_child_lookup (r : Register) (b : List (String × Definition))
    (f0 : Frame) (n : String)
    (h0 : r.blocks.head? = some f0) (hp : f0.parent = none) :
    Register.named (r.create_root_child b) n
      = ((assocGet b n).orElse fun _ => assocGet f0.values n) := by
  have hne : r.blocks ≠ [] := by
    intro hh
    rw [hh] at h0
    cases h0
  have hpos : 0 < r.blocks.length := List.length_pos.mpr hne
  obtain ⟨m, hm⟩ : ∃ m, r.blocks.length = m + 1 := ⟨r.blocks.length - 1, by omega⟩
  have hblocks2 : (r.create_root_child b).blocks
      = r.blocks ++ [{ parent := some 0, id := r.blocks.length, values := b }] := rfl
  have hstep1 : lookupNamed (r.create_root_child b) (r.blocks.length + 1) r.blocks.length n
      = (match assocGet b n with
         | some d => some (some d)
         | none => lookupNamed (r.create_root_child b) r.blocks.length 0 n) := by
    simp only [lookupNamed, hblocks2, List.getElem?_concat_length]
  have h00 : (r.create_root_child b).blocks[0]? = some f0 := by
    rw [hblocks2, List.getElem?_append_left hpos, ← List.head?_eq_getElem?, h0]
  have hstep2 : lookupNamed (r.create_root_child b) r.blocks.length 0 n
      = (match assocGet f0.values n with
         | some d => some (some d)
         | none => some none) := by
    rw [hm]
    simp only [lookupNamed, h00]
    cases hf : assocGet f0.values n with
    | some d => rfl
    | none => rw [hp]
  show (match lookupNamed (r.create_root_child b) (r.create_root_child b).blocks.length
        ((r.create_root_child b).blocks.length - 1) n with
      | some res => res | none => none) = _
  have hlen2 : (r.create_root_child b).blocks.length = r.blocks.length + 1 := by
    rw [hblocks2]; simp
  rw [hlen2, Nat.add_sub_cancel, hstep1]
  cases hb : assocGet b n with
  | some d => rfl
  | none =>
    rw [hstep2]
    cases hf : assocGet f0.values n with
    | some x => rfl
    | none => rfl

theorem regInv_nil : RegInv ⟨[]⟩ := by
  intro i f h
  have h' : ([] : List Frame)[i]? = some f := h
  simp at h'

theorem regInv_push (bs : List Frame) (nf : Frame)
    (hinv : RegInv ⟨bs⟩) (hid : nf.id ≤ bs.length)
    (hpar : ∀ p, nf.parent = some p → p < bs.length) :
    RegInv ⟨bs ++ [nf]⟩ := by
  intro i f h
  have h' : (bs ++ [nf])[i]? = some f := h
  rcases Nat.lt_trichotomy i bs.length with hi | hi | hi
  · rw [List.getElem?_append_left hi] at h'
    exact hinv i f h'
  · subst hi
    rw [List.getElem?_concat_length] at h'
    injection h' with hf
    subst hf
    exact ⟨hid, hpar⟩
  · rw [List.getElem?_eq_none (by simpa using hi)] at h'
    cases h'

theorem regInv_dropLast (bs : List Frame) (hinv : RegInv ⟨bs⟩) : RegInv ⟨bs.dropLast⟩ := by
  intro i f h
  have h' : bs.dropLast[i]? = some f := h
  rw [List.getElem?_dropLast] at h'
  by_cases hi : i < bs.length - 1
  · rw [if_pos hi] at h'
    exact hinv i f h'
  · rw [if_neg hi] at h'
    cases h'

theorem builtSafe_regInv (r : Register) (hb : BuiltSafe r) : RegInv r := by
  induction hb with
  | empty => exact regInv_nil
  | root r0 init _ ih =>
    exact regInv_push r0.blocks _ ih (Nat.zero_le _) (by intro p hp; cases hp)
  | child r0 f init i _ hf ih =>
    refine regInv_push r0.blocks _ ih (Nat.le_refl _) ?_
    intro p hp
    injection hp with hpid
    subst hpid
    have hi : i < r0.blocks.length := (List.getElem?_eq_some.mp hf).1
    have hfid := (ih i f hf).1
    omega
  | rootChild r0 init _ hne ih =>
    refine regInv_push r0.blocks _ ih (Nat.le_refl _) ?_
    intro p hp
    injection hp with hpid
    subst hpid
    exact List.length_pos.mpr hne
  | drop r0 _ ih => exact regInv_dropLast r0.blocks ih

theorem lookupNamed_isSome_of_inv (r : Register) (hinv : RegInv r) :
    ∀ (i : Nat), i < r.blocks.length → ∀ (fuel : Nat), i + 1 ≤ fuel → ∀ (n : String),
    (lookupNamed r fuel i n).isSome = true := by
  intro i
  induction i using Nat.strong_induction_on with
  | _ i ih =>
    intro hi fuel hfuel n
    obtain ⟨g, rfl⟩ : ∃ g, fuel = g + 1 := ⟨fuel - 1, by omega⟩
    obtain ⟨f, hf⟩ : ∃ f, r.blocks[i]? = some f := by
      rw [List.getElem?_eq_getElem hi]
      exact ⟨_, rfl⟩
    simp only [lookupNamed, hf]
    cases hv : assocGet f.values n with
    | some d => simp
    | none =>
      cases hpar : f.parent with
      | none => simp
      | some p =>
        have hp : p < i := (hinv i f hf).2 p hpar
        exact ih p hp (by omega) g (by omega) n

/-- On the register built by `create_root_child` applied to the empty
register, a lookup of an unbound name from frame 0 follows the
self-referencing parent link forever: no amount of fuel completes it
(in Rust, `NaslContext::named` recurses without bound). -/
theorem selfParentReg_lookup_diverges (n : String) :
    ∀ fuel, lookupNamed selfParentReg fuel 0 n = none := by
  intro fuel
  induction fuel with
  | zero => rfl
  | succ m ih =>
    simpa [lookupNamed, selfParentReg, Register.create_root_child, Register.new,
      Register.index, assocGet] using ih

theorem isNamedArg_iff (a : Statement) :
    isNamedArg a = true ↔ ∃ t v, a = .NamedParameter t v := by
  cases a <;> simp [isNamedArg]

theorem evalCallArgs_cons_pos (fuel : Nat) (c : Ctx) (r : Register) (a : Statement)
    (rest : List Statement) (named0 : List (String × Definition)) (pos0 : List NaslValue)
    (ha : isNamedArg a = false) :
    evalCallArgs (fuel + 1) c r (a :: rest) named0 pos0
      = (match resolve fuel c r a with
         | (.ok v, r1) => evalCallArgs fuel c r1 rest named0 (pos0 ++ [v])
         | (o, r1) => .fail o r1) := by
  cases a <;> first | rfl | simp [isNamedArg] at ha

theorem specPositionalArgs_cons_pos (fuel : Nat) (c : Ctx) (r : Register) (a : Statement)
    (rest : List Statement) (ha : isNamedArg a = false) :
    specPositionalArgs (fuel + 1) c r (a :: rest)
      = (match resolve fuel c r a with
         | (.ok v, r1) =>
            (match specPositionalArgs fuel c r1 rest with
             | some (vs, r2) => some (v :: vs, r2)
             | none => none)
         | _ => none) := by
  cases a <;> first | rfl | simp [isNamedArg] at ha

theorem evalCallArgs_spec (args : List Statement) :
    ∀ (fuel : Nat) (c : Ctx) (r : Register) (named0 : List (String × Definition))
      (pos0 : List NaslValue) (named : List (String × Definition))
      (pos : List NaslValue) (r1 : Register),
    evalCallArgs fuel c r args named0 pos0 = .ok named pos r1 →
    ∃ vs, pos = pos0 ++ vs ∧ specPositionalArgs fuel c r args = some (vs, r1) ∧
      vs.length = args.countP (fun a => !isNamedArg a) := by
  induction args with
  | nil =>
    intro fuel c r named0 pos0 named pos r1 h
    have h' : ArgsResult.ok named0 pos0 r = .ok named pos r1 := by
      cases fuel <;> exact h
    injection h' with h1 h2 h3
    subst h1; subst h2; subst h3
    refine ⟨[], by simp, ?_, by simp⟩
    cases fuel <;> rfl
  | cons a rest ih =>
    intro fuel c r named0 pos0 named pos r1 h
    cases fuel with
    | zero => simp [evalCallArgs] at h
    | succ m =>
      by_cases ha : isNamedArg a = true
      · obtain ⟨tk, val, rfl⟩ := (isNamedArg_iff a).mp ha
        rcases hres : resolve m c r val with ⟨o, r2⟩
        cases o with
        | ok v =>
          have h2 : evalCallArgs m c r2 rest (assocInsert named0 tk (.Value v)) pos0
              = .ok named pos r1 := by
            rw [show evalCallArgs (m + 1) c r (Statement.NamedParameter tk val :: rest) named0 pos0
                = evalCallArgs m c r2 rest (assocInsert named0 tk (.Value v)) pos0 from by
              simp [evalCallArgs, hres]] at h
            exact h
          obtain ⟨vs, hpos, hspec, hlen⟩ := ih m c r2 _ pos0 named pos r1 h2
          refine ⟨vs, hpos, ?_, ?_⟩
          · simp [specPositionalArgs, hres, hspec]
          · simp [List.countP_cons, isNamedArg, hlen]
        | err e => simp [evalCallArgs, hres] at h
        | abort e => simp [evalCallArgs, hres] at h
        | timeout => simp [evalCallArgs, hres] at h
      · have ha' : isNamedArg a = false := by simpa using ha
        rw [evalCallArgs_cons_pos m c r a rest named0 pos0 ha'] at h
        rcases hres : resolve m c r a with ⟨o, r2⟩
        rw [hres] at h
        cases o with
        | ok v =>
          obtain ⟨vs, hpos, hspec, hlen⟩ := ih m c r2 named0 (pos0 ++ [v]) named pos r1 h
          refine ⟨v :: vs, ?_, ?_, ?_⟩
          · rw [hpos]; simp
          · rw [specPositionalArgs_cons_pos m c r a rest ha', hres]
            show (match specPositionalArgs m c r2 rest with
                  | some (vs2, r3) => some (v :: vs2, r3)
                  | none => none) = some (v :: vs, r1)
            rw [hspec]
          · simp [List.countP_cons, ha', hlen, Nat.add_comm]
        | err e => simp at h
        | abort e => simp at h
        | timeout => simp at h

theorem blockRun_sentinel (pre : List Statement) :
    ∀ (fuel fl : Nat) (c : Ctx) (r r1 : Register),
    runsClean fuel c r pre = some (fl + 1, r1) →
    ∀ (s : Statement) (rest : List Statement) (v : NaslValue) (r2 : Register),
    resolve fl c r1 s = (.ok v, r2) → isControlSentinel v = true →
    resolveBlock fuel c r (pre ++ s :: rest) = (.ok v, r2) := by
  induction pre with
  | nil =>
    intro fuel fl c r r1 h s rest v r2 hs hv
    have h' : (some (fuel, r) : Option (Nat × Register)) = some (fl + 1, r1) := by
      cases fuel <;> exact h
    injection h' with h''
    have hfl : fuel = fl + 1 := congrArg Prod.fst h''
    have hr : r = r1 := congrArg Prod.snd h''
    subst hfl; subst hr
    show resolveBlock (fl + 1) c r (s :: rest) = (.ok v, r2)
    cases v <;>
      solve
        | simp [isControlSentinel] at hv
        | simp [resolveBlock, hs]
  | cons q pre' ih =>
    intro fuel fl c r r1 h s rest v r2 hs hv
    cases fuel with
    | zero => simp [runsClean] at h
    | succ g =>
      rcases hq : resolve g c r q with ⟨o, rq⟩
      cases o with
      | ok w =>
        simp only [runsClean, hq] at h
        by_cases hw : isControlSentinel w = true
        · rw [if_pos hw] at h
          simp at h
        · rw [if_neg hw] at h
          have hrec := ih g fl c rq r1 h s rest v r2 hs hv
          show resolveBlock (g + 1) c r (q :: (pre' ++ s :: rest)) = (.ok v, r2)
          cases w <;>
            solve
              | simp [isControlSentinel] at hw
              | simpa [resolveBlock, hq] using hrec
      | err e => simp only [runsClean, hq] at h; simp at h
      | abort e => simp only [runsClean, hq] at h; simp at h
      | timeout => simp only [runsClean, hq] at h; simp at h

theorem blockRun_clean (stmts : List Statement) :
    ∀ (fuel fl : Nat) (c : Ctx) (r r1 : Register),
    runsClean fuel c r stmts = some (fl, r1) →
    resolveBlock fuel c r stmts = (.ok .Null, r1) := by
  induction stmts with
  | nil =>
    intro fuel fl c r r1 h
    have h' : (some (fuel, r) : Option (Nat × Register)) = some (fl, r1) := by
      cases fuel <;> exact h
    injection h' with h''
    have hr : r = r1 := congrArg Prod.snd h''
    subst hr
    cases fuel <;> rfl
  | cons q rest ih =>
    intro fuel fl c r r1 h
    cases fuel with
    | zero => simp [runsClean] at h
    | succ g =>
      rcases hq : resolve g c r q with ⟨o, rq⟩
      cases o with
      | ok w =>
        simp only [runsClean, hq] at h
        by_cases hw : isControlSentinel w = true
        · rw [if_pos hw] at h
          simp at h
        · rw [if_neg hw] at h
          have hrec := ih g fl c rq r1 h
          show resolveBlock (g + 1) c r (q :: rest) = (.ok .Null, r1)
          cases w <;>
            solve
              | simp [isControlSentinel] at hw
              | simpa [resolveBlock, hq] using hrec
      | err e => simp only [runsClean, hq] at h; simp at h
      | abort e => simp only [runsClean, hq] at h; simp at h
      | timeout => simp only [runsClean, hq] at h; simp at h

theorem i32_coercion_eq_table : ∀ (v : NaslValue), coerceToI32 v = specI32Table v
  | .String _ => rfl
  | .Number _ => rfl
  | .Array _ => rfl
  | .Dict _ => rfl
  | .Boolean _ => rfl
  | .AttackCategory _ => rfl
  | .Null => rfl
  | .Exit _ => rfl
  | .Break => rfl
  | .Continue => rfl
  | .Return x => by
      rw [show coerceToI32 (.Return x) = coerceToI32 x from rfl,
        show specI32Table (.Return x) = specI32Table x from rfl,
        i32_coercion_eq_table x]

/-- Claim C1 (code bug): the spec requires the call frame pushed by the
dispatcher to be popped on every exit path, but `CallExtension::call`
reaches `drop_last` only on the paths that flow into `result`; the `?`
on the register lookup returns early.  Calling the undefined function
`test()` on a register holding only the root frame therefore yields the
`function test not found` error with the call frame still pushed: the
frame count grows from 1 to 2.  (The `?` on the body evaluation leaks
the frame on callee-body errors in the same way.) -/
theorem call_frame_leak_on_missing_function :
    resolve 20 noBuiltins rootOnlyReg callTestStmt
      = (.err "function test not found",
         ⟨[{ parent := none, id := 0, values := [] },
           { parent := some 0, id := 1,
             values := [(anonArgsName, .Value (.Array []))] }]⟩) ∧
    rootOnlyReg.blocks.length = 1 ∧
    (resolve 20 noBuiltins rootOnlyReg callTestStmt).2.blocks.length = 2 :=
  ⟨rfl, rfl, rfl⟩

/-- Counterexample to claim C2 as stated: with the root binding the
global `x = 42` and `test(x) { return x; }`, the call `test()` resolves
the declared parameter `x` through the parent chain, finds the global,
skips the `Null` default, and the callee observes `42` — not `Null` as
the claim requires. -/
theorem default_null_shadowed_by_global_cex :
    resolve 20 noBuiltins shadowedParamReg callTestStmt
      = (.ok (.Number 42), shadowedParamReg) ∧
    NaslValue.Number 42 ≠ NaslValue.Null :=
  ⟨rfl, fun h => NaslValue.noConfusion h⟩

/-- Claim C2 (amended): when a call dispatches to a user-defined
function, every declared parameter name for which the register lookup
from the call frame — the current frame, then its parent chain —
finds no definition is bound to `Null` in the call frame before the
body is evaluated; hence a declared parameter that is neither passed
at the call site nor visible through the root chain is observed by the
callee as `Null`.  Stated on the dispatcher's default-binding stage:
`prepareDefaults` applied to the pushed root-child frame. -/
theorem call_defaults_bind_null_when_unresolvable (fnparams : List String)
    (r : Register) (b : List (String × Definition)) (p : String)
    (hmem : p ∈ fnparams)
    (hnone : Register.named (r.create_root_child b) p = none) :
    Register.named (prepareDefaults fnparams (r.create_root_child b)) p
      = some (.Value .Null) := by
  refine prepareDefaults_binds_unresolved fnparams (r.create_root_child b) p ?_ hmem hnone
  show r.blocks ++ [{ parent := some 0, id := r.index, values := b }] ≠ []
  simp

/-- Witness for claim C2's theorem: the single declared parameter `a`,
unbound anywhere, is `Null` after default preparation. -/
theorem call_defaults_bind_null_witness :
    Register.named (prepareDefaults ["a"] (rootOnlyReg.create_root_child [])) "a"
      = some (.Value .Null) :=
  call_defaults_bind_null_when_unresolvable ["a"] rootOnlyReg [] "a" (by simp) rfl

/-- Claim C3: the frame pushed for a function call has the root
(index 0) as its parent, and a lookup started from it consults exactly
the call frame's own map and then the root's map — under the stated
shape of the register (its first frame, the root, has no parent).  In
particular no frame between root and call frame (the caller's locals)
is ever consulted. -/
theorem call_frame_parent_root_lookup (r : Register) (b : List (String × Definition))
    (f0 : Frame) (n : String)
    (h0 : r.blocks.head? = some f0) (hp : f0.parent = none) :
    (r.create_root_child b).blocks.getLast?
      = some { parent := some 0, id := r.blocks.length, values := b } ∧
    Register.named (r.create_root_child b) n
      = ((assocGet b n).orElse fun _ => assocGet f0.values n) := by
  refine ⟨?_, create_root_child_lookup r b f0 n h0 hp⟩
  show (r.blocks ++ [({ parent := some 0, id := r.index, values := b } : Frame)]).getLast? = _
  rw [List.getLast?_concat]
  rfl

/-- Witness for claim C3's theorem: with a root binding `g` and a
caller-local frame binding `y`, a fresh call frame has parent 0 and
does not see the caller-local `y`. -/
theorem call_frame_parent_root_lookup_witness :
    ((callerLocalReg.create_root_child []).blocks.getLast?
      = some { parent := some 0, id := 2, values := [] }) ∧
    Register.named (callerLocalReg.create_root_child []) "y" = none := by
  have h := call_frame_parent_root_lookup callerLocalReg []
    { parent := none, id := 0, values := [("g", .Value (.Number 1))] } "y" rfl rfl
  exact ⟨h.1, h.2⟩

/-- Claim C4: for every call site whose argument processing succeeds,
the new call frame binds `_FCT_ANON_ARGS` to an `Array` holding exactly
the positional (unnamed) arguments in call-site order — the list
agrees with the spec-side left-to-right collection
`specPositionalArgs` — its length equals the number of positional
arguments, and it is empty when there are none. -/
theorem fct_anon_args_binding (args : List Statement) (fuel : Nat) (c : Ctx)
    (r r1 : Register) (named : List (String × Definition)) (pos : List NaslValue)
    (h : evalCallArgs fuel c r args [] [] = .ok named pos r1) :
    lastValuesGet (r1.create_root_child
        (assocInsert named anonArgsName (.Value (.Array pos)))) anonArgsName
      = some (.Value (.Array pos)) ∧
    specPositionalArgs fuel c r args = some (pos, r1) ∧
    pos.length = args.countP (fun a => !isNamedArg a) ∧
    (args.countP (fun a => !isNamedArg a) = 0 → pos = []) := by
  obtain ⟨vs, hpos, hspec, hlen⟩ := evalCallArgs_spec args fuel c r [] [] named pos r1 h
  have hvs : pos = vs := by simpa using hpos
  subst hvs
  refine ⟨?_, hspec, hlen, fun h0 => ?_⟩
  · show lastValuesGet ⟨r1.blocks ++ [_]⟩ anonArgsName = _
    rw [lastValuesGet_concat]
    exact assocGet_insert_self named anonArgsName _
  · exact List.length_eq_zero.mp (hlen.trans h0)

/-- Witness for claim C4's theorem at the call site
`(1, a: 2, 23)`: the positional list is `[1, 23]` in order. -/
theorem fct_anon_args_binding_witness :
    specPositionalArgs 10 noBuiltins rootOnlyReg
        [.Primitive (.Number 1), .NamedParameter "a" (.Primitive (.Number 2)),
         .Primitive (.Number 23)]
      = some ([.Number 1, .Number 23], rootOnlyReg) :=
  (fct_anon_args_binding
    [.Primitive (.Number 1), .NamedParameter "a" (.Primitive (.Number 2)),
     .Primitive (.Number 23)] 10 noBuiltins rootOnlyReg rootOnlyReg
    [("a", .Value (.Number 2))] [.Number 1, .Number 23] rfl).2.1

/-- Counterexample to claim C5 as stated: evaluating a variable
reference whose binding is a `Function` runs into `todo!()` — a Rust
panic (`abort` in the model), not an evaluation error. -/
theorem variable_function_binding_aborts_cex :
    resolve 5 noBuiltins fnBindingReg (.Variable "f")
      = (.abort "not yet implemented", fnBindingReg) ∧
    (resolve 5 noBuiltins fnBindingReg (.Variable "f")).1.isErr = false :=
  ⟨rfl, rfl⟩

/-- Claim C5 (amended): a variable reference looks the name up; a
`Value` binding returns a clone of the value, an unbound name is the
`variable <name> not found` evaluation error, and a `Function` binding
panics (`todo!()` — functions are not first-class values, but the
unimplemented arm aborts instead of raising an evaluation error).
The nonempty-register hypothesis reflects that `Register::last`
unwraps. -/
theorem variable_reference_resolution (fuel : Nat) (c : Ctx) (r : Register) (nm : String)
    (hne : r.blocks ≠ []) :
    (Register.named r nm = none →
      resolve (fuel + 1) c r (.Variable nm) = (.err ("variable " ++ nm ++ " not found"), r)) ∧
    (∀ v, Register.named r nm = some (.Value v) →
      resolve (fuel + 1) c r (.Variable nm) = (.ok v, r)) ∧
    (∀ ps b, Register.named r nm = some (.Function ps b) →
      resolve (fuel + 1) c r (.Variable nm) = (.abort "not yet implemented", r)) := by
  refine ⟨fun h => ?_, fun v h => ?_, fun ps b h => ?_⟩ <;> simp [resolve, h]

/-- Witness for claim C5's theorem: an unbound name reports
`variable zz not found`. -/
theorem variable_reference_resolution_witness :
    resolve 6 noBuiltins rootOnlyReg (.Variable "zz")
      = (.err ("variable " ++ "zz" ++ " not found"), rootOnlyReg) :=
  (variable_reference_resolution 5 noBuiltins rootOnlyReg "zz"
    (fun h => List.noConfusion h)).1 rfl

/-- Counterexample to claim C6 as stated: `create_root` applied to a
register that already holds a root does not fail — it pushes a second
frame (again with id 0 and no parent), growing the register to two
frames. -/
theorem create_root_pushes_second_root_cex :
    ((Register.new.create_root []).create_root []).blocks.length = 2 ∧
    ((Register.new.create_root []).create_root []).blocks[1]?
      = some { parent := none, id := 0, values := [] } :=
  ⟨rfl, rfl⟩

/-- Claim C6 (amended): `create_root` unconditionally pushes a frame
with no parent and id 0 — the root when the register is empty; when a
root already exists it does not fail but pushes another such frame. -/
theorem create_root_always_pushes (r : Register) (init : List (String × Definition)) :
    (r.create_root init).blocks.length = r.blocks.length + 1 ∧
    (r.create_root init).blocks.getLast? = some { parent := none, id := 0, values := init } := by
  constructor
  · show (r.blocks ++ [_]).length = _
    simp
  · show (r.blocks ++ [_]).getLast? = _
    rw [List.getLast?_concat]

/-- Claim C7: evaluating a `Block` evaluates the children in order;
after a clean prefix (`runsClean`), the first child that evaluates to
a control sentinel short-circuits the block with that sentinel
unchanged, whatever statements follow it; and when every child runs
clean the block evaluates to `Null`. -/
theorem block_short_circuits_on_sentinel :
    (∀ (pre : List Statement) (fuel fl : Nat) (c : Ctx) (r r1 : Register)
       (s : Statement) (rest : List Statement) (v : NaslValue) (r2 : Register),
       runsClean fuel c r pre = some (fl + 1, r1) →
       resolve fl c r1 s = (.ok v, r2) → isControlSentinel v = true →
       resolve (fuel + 1) c r (.Block (pre ++ s :: rest)) = (.ok v, r2)) ∧
    (∀ (stmts : List Statement) (fuel fl : Nat) (c : Ctx) (r r1 : Register),
       runsClean fuel c r stmts = some (fl, r1) →
       resolve (fuel + 1) c r (.Block stmts) = (.ok .Null, r1)) := by
  constructor
  · intro pre fuel fl c r r1 s rest v r2 h hs hv
    show resolveBlock fuel c r (pre ++ s :: rest) = (.ok v, r2)
    exact blockRun_sentinel pre fuel fl c r r1 h s rest v r2 hs hv
  · intro stmts fuel fl c r r1 h
    show resolveBlock fuel c r stmts = (.ok .Null, r1)
    exact blockRun_clean stmts fuel fl c r r1 h

/-- Witness for claim C7's theorem: `Break` in the middle of a block
short-circuits past the trailing statement. -/
theorem block_short_circuits_witness :
    resolve 6 noBuiltins rootOnlyReg
        (.Block [.Primitive (.Number 1), .Break, .Primitive (.Number 99)])
      = (.ok .Break, rootOnlyReg) :=
  block_short_circuits_on_sentinel.1 [.Primitive (.Number 1)] 5 3 noBuiltins
    rootOnlyReg rootOnlyReg .Break [.Primitive (.Number 99)] .Break rootOnlyReg
    rfl rfl rfl

/-- Claim C8: boolean coercion is a total, deterministic function on
every `NaslValue` variant (it is a Lean function), and it agrees with
the spec's reference table on every variant. -/
theorem bool_coercion_matches_spec_table : ∀ (v : NaslValue), coerceToBool v = specBoolTable v
  | .String s => by
      by_cases h1 : s = "" <;> by_cases h2 : s = "0"
      · simp [coerceToBool, specBoolTable, h1, h2, show "".isEmpty = true from rfl]
      · simp [coerceToBool, specBoolTable, h1, h2, show "".isEmpty = true from rfl]
      · simp [coerceToBool, specBoolTable, h1, h2]
      · have he : s.isEmpty = false := by
          rw [Bool.eq_false_iff]
          intro hh
          exact h1 ((String.isEmpty_iff s).mp hh)
        simp [coerceToBool, specBoolTable, h1, h2, he]
  | .Number n => by by_cases h : n = 0 <;> simp [coerceToBool, specBoolTable, h]
  | .Exit n => by by_cases h : n = 0 <;> simp [coerceToBool, specBoolTable, h]
  | .Boolean b => rfl
  | .Null => rfl
  | .Break => rfl
  | .Continue => rfl
  | .Array a => rfl
  | .Dict d => rfl
  | .AttackCategory c => rfl
  | .Return v => by
      rw [show coerceToBool (.Return v) = coerceToBool v from rfl,
        show specBoolTable (.Return v) = specBoolTable v from rfl,
        bool_coercion_matches_spec_table v]

/-- Counterexample to claim C9 as stated: the register built by
`create_root_child` on the empty register — frames created only
through the listed creation operations — has its frame 0 carrying
parent index 0, which is not strictly smaller than its own index, and
a lookup of an unbound name from it never finishes (here: still
running after 1000 parent steps). -/
theorem rootchild_on_empty_breaks_parent_invariant_cex :
    Built selfParentReg ∧
    selfParentReg.blocks[0]? = some { parent := some 0, id := 0, values := [] } ∧
    ¬ (0 < 0) ∧
    lookupNamed selfParentReg 1000 0 "x" = none := by
  refine ⟨Built.rootChild Register.new [] Built.empty, rfl, by omega, ?_⟩
  exact selfParentReg_lookup_diverges "x" 1000

/-- Claim C9 (amended): on every register built through the creation
operations with `create_root_child` only ever applied to a nonempty
register (as the interpreter guarantees, creating the root at
construction), every parent link points strictly below the frame's own
index, and a lookup started from any frame `i` completes within `i + 1`
parent steps for every name. -/
theorem parent_indices_strictly_decrease (r : Register) (hb : BuiltSafe r) :
    (∀ (i : Nat) (f : Frame) (p : Nat), r.blocks[i]? = some f → f.parent = some p → p < i) ∧
    (∀ (i : Nat) (n : String), i < r.blocks.length →
      (lookupNamed r (i + 1) i n).isSome = true) := by
  have hinv := builtSafe_regInv r hb
  constructor
  · intro i f p hf hp
    exact (hinv i f hf).2 p hp
  · intro i n hi
    exact lookupNamed_isSome_of_inv r hinv i hi (i + 1) (Nat.le_refl _) n

/-- Witness for claim C9's theorem on a root plus one call frame: the
call frame's parent 0 is below its index 1, and a lookup from it
completes with two steps of fuel. -/
theorem parent_indices_strictly_decrease_witness :
    (0 < 1) ∧ (lookupNamed rootThenChildReg 2 1 "x").isSome = true := by
  have hb : BuiltSafe rootThenChildReg :=
    BuiltSafe.rootChild rootOnlyReg [] (BuiltSafe.root Register.new [] BuiltSafe.empty)
      (fun h => List.noConfusion h)
  have h := parent_indices_strictly_decrease rootThenChildReg hb
  exact ⟨h.1 1 { parent := some 0, id := 1, values := [] } 0 rfl rfl,
    h.2 1 "x" (by decide)⟩

/-- Claim C10: integer coercion agrees with the reference table on
every variant — defined on each non-control variant and on `Return`,
and a panic (no integer result) on the `Break`/`Continue` sentinels —
and an evaluation path that feeds such a sentinel into integer
coercion, such as an array index, aborts. -/
theorem i32_coercion_table_and_sentinel_abort :
    (∀ (v : NaslValue), coerceToI32 v = specI32Table v) ∧
    resolve 5 noBuiltins arrayBindingReg (.Array "xs" (some .Break))
      = (.abort "cannot handle", arrayBindingReg) ∧
    resolve 5 noBuiltins arrayBindingReg (.Array "xs" (some .Continue))
      = (.abort "cannot handle", arrayBindingReg) :=
  ⟨i32_coercion_eq_table, rfl, rfl⟩

end NaslCore
